import Mathlib

/-!
Shallow embedding of src/readwise.py and verification of the frozen claims.

The script has two phases. The export phase fetches all highlights via the
paginated export endpoint, enriches highlights that carry fewer than three
tags with suggestions from a text-generation service, and writes a CSV row
per non-empty highlight. The update phase re-fetches highlights, matches CSV
rows back to remote highlights, and pushes tag updates with a retry loop,
recording successful ids in an append-only log file.

External effects (HTTP responses, the suggestion reply, the log file) are
modelled as explicit parameters and state; Python string primitives that the
script relies on (str.strip, str.split, readlines) are embedded as
character-list functions.
-/

namespace Readwise

/-- A tag object as sent to and received from the service: a name-only record. -/
structure Tag where
  name : String
deriving DecidableEq

/-- A highlight record: remote id, text, and existing tag objects. -/
structure Highlight where
  id : Nat
  text : String
  tags : List Tag
deriving DecidableEq

/-- A book record: title plus its highlights, as returned by the export endpoint. -/
structure Book where
  title : String
  highlights : List Highlight
deriving DecidableEq

/-- Python str.strip on a character list: drop leading and trailing whitespace. -/
def stripChars (l : List Char) : List Char :=
  ((l.dropWhile Char.isWhitespace).reverse.dropWhile Char.isWhitespace).reverse

/-- Python str.strip on a string. -/
def pyStrip (s : String) : String :=
  String.mk (stripChars s.data)

/-- Does the list start with the given (separator) list? -/
def startsWithSep : List Char → List Char → Bool
  | [], _ => true
  | _ :: _, [] => false
  | a :: as, b :: bs => a == b && startsWithSep as bs

/-- Worker for Python str.split with an explicit separator; the fuel is an upper
bound on the number of characters still to scan. -/
def pySplitGo (sep : List Char) : Nat → List Char → List Char → List (List Char)
  | _, [], cur => [cur]
  | 0, rest, cur => [cur ++ rest]
  | fuel + 1, c :: rest, cur =>
    if startsWithSep sep (c :: rest) then
      cur :: pySplitGo sep fuel ((c :: rest).drop sep.length) []
    else
      pySplitGo sep fuel rest (cur ++ [c])

/-- Python str.split(sep) for a non-empty separator; in particular the empty
string splits to a one-element list holding the empty string. -/
def pySplit (s sep : String) : List String :=
  (pySplitGo sep.data s.data.length s.data []).map String.mk

/-- Worker for Python readlines: cut the character stream at every newline,
keeping a final unterminated piece only when it is non-empty. The accumulator
holds the current line reversed. -/
def splitLinesAux : List Char → List Char → List (List Char)
  | [], cur => if cur == [] then [] else [cur.reverse]
  | c :: rest, cur =>
    if c == '\n' then cur.reverse :: splitLinesAux rest []
    else splitLinesAux rest (c :: cur)

/-- Python readlines (modulo the kept line terminators, which the script
strips right away): the list of physical lines of the character stream. -/
def splitLines (content : List Char) : List (List Char) :=
  splitLinesAux content []

/-- generate_tags_from_openai (src/readwise.py lines 24-45). The external
service reply is a parameter: some content on success, none when any
exception is raised (transport failure, malformed response, service error).
On success the reply content is stripped, split on commas, each fragment is
stripped, and empty fragments are discarded; on failure the result is []. -/
def generate_tags_from_openai (reply : Option String) : List String :=
  match reply with
  | none => []
  | some content =>
    ((pySplit (pyStrip content) ",").map pyStrip).filter (fun t => !(t == ""))

/-- The tag names already attached to a highlight
(src/readwise.py line 101: the name field of each tag object). -/
def existingTagNames (h : Highlight) : List String :=
  h.tags.map Tag.name

/-- The per-highlight final-tag computation of the export loop
(src/readwise.py lines 100-107), for a highlight with non-empty text.
`suggest` is the suggestion client; the second component counts how many
times it is invoked (the code calls it once when fewer than three tags
exist, and never otherwise). -/
def export_final_tags (suggest : String → List String) (highlight_text : String)
    (existing_tags : List String) : List String × Nat :=
  if existing_tags.length < 3 then
    (existing_tags ++ (suggest highlight_text).take (3 - existing_tags.length), 1)
  else
    (existing_tags, 0)

/-- The Tags column written for a CSV row (src/readwise.py line 115):
the comma+space join of the final tag list. -/
def csvTagsField (tags : List String) : String :=
  String.intercalate ", " tags

/-- One response of the export endpoint: HTTP status, the results list
(book records), and the optional nextPageCursor value. -/
structure ExportResponse where
  statusCode : Nat
  results : List Book
  nextPageCursor : Option String
deriving DecidableEq

/-- Python truthiness of the nextPageCursor value: absent and empty-string
cursors both read as false (src/readwise.py line 67: if not next_page_cursor). -/
def cursorTruthy : Option String → Bool
  | none => false
  | some s => !(s == "")

/-- The export-phase fetch_highlights (src/readwise.py lines 49-74): follow
cursors, accumulating each page's results, until a page carries no truthy
cursor; a non-200 page stops the loop and the records accumulated so far are
returned. The list holds the successive responses the server would give. -/
def fetch_highlights_export : List ExportResponse → List Book
  | [] => []
  | r :: rest =>
    if r.statusCode == 200 then
      if cursorTruthy r.nextPageCursor then r.results ++ fetch_highlights_export rest
      else r.results
    else []

/-- The update-phase fetch_highlights (src/readwise.py lines 196-210), which
shadows the export-phase one: a single request; its results on 200, and []
on any other status or on a transport error. -/
def fetch_highlights_update : List ExportResponse → List Book
  | [] => []
  | r :: _ => if r.statusCode == 200 then r.results else []

/-- MAX_RETRIES (src/readwise.py line 141). -/
def MAX_RETRIES : Nat := 5

/-- Outcome of one PATCH attempt: an HTTP status code, or a transport-level
request error (requests.exceptions.RequestException). -/
inductive PatchResult where
  | status (code : Nat)
  | transportError
deriving DecidableEq

/-- Observable outcome of one update_highlight_tags call: the returned
boolean, the sequence of backoff sleeps performed, the number of PATCH
requests issued, whether log_successful_update was called, and the payload
each request carried. -/
structure PushResult where
  success : Bool
  sleeps : List Nat
  requests : Nat
  logged : Bool
  payload : List Tag
deriving DecidableEq

/-- The PATCH body built by update_highlight_tags (src/readwise.py line 164):
one name-only tag object per tag string. -/
def patchPayload (tags : List String) : List Tag :=
  tags.map (fun t => ⟨t⟩)

/-- The retry loop of update_highlight_tags (src/readwise.py lines 165-193).
`respond` gives the outcome of the i-th attempt; the fuel is
MAX_RETRIES - retries, `i` the attempt index, `b` the current backoff. -/
def pushLoop (payload : List Tag) (respond : Nat → PatchResult) :
    Nat → Nat → Nat → PushResult
  | 0, _, _ => ⟨false, [], 0, false, payload⟩
  | fuel + 1, i, b =>
    match respond i with
    | PatchResult.transportError => ⟨false, [], 1, false, payload⟩
    | PatchResult.status c =>
      if c = 200 then ⟨true, [], 1, true, payload⟩
      else if c = 429 then
        let r := pushLoop payload respond fuel (i + 1) (b * 2)
        ⟨r.success, b :: r.sleeps, r.requests + 1, r.logged, payload⟩
      else ⟨false, [], 1, false, payload⟩

/-- update_highlight_tags (src/readwise.py lines 159-193): retries start at 0,
backoff starts at 2 seconds. -/
def update_highlight_tags (tags : List String) (respond : Nat → PatchResult) :
    PushResult :=
  pushLoop (patchPayload tags) respond MAX_RETRIES 0 2

/-- A response that hits neither the 200 branch nor the 429 branch of the
retry loop: any other status code, or a transport error. -/
def isHardFailure : PatchResult → Bool
  | PatchResult.status c => !(c == 200) && !(c == 429)
  | PatchResult.transportError => true

/-- load_updated_highlight_ids (src/readwise.py lines 143-150). The log file
is modelled as its optional contents (none when the file does not exist);
the result is the stripped physical lines. -/
def load_updated_highlight_ids (file : Option String) : List String :=
  match file with
  | none => []
  | some content => (splitLines content.data).map (fun l => String.mk (stripChars l))

/-- log_successful_update (src/readwise.py lines 152-157): open for
append-create and write the id followed by a newline. -/
def log_successful_update (file : Option String) (highlight_id : String) :
    Option String :=
  some ((file.getD "") ++ highlight_id ++ "\n")

/-- A log file state reachable by the script: absent, or ending in a newline
(every write appends exactly one newline-terminated line). -/
def wellFormedLog : Option String → Prop
  | none => True
  | some c => c.data = [] ∨ c.data.getLast? = some '\n'

/-- The candidate test of the update-phase matching loop
(src/readwise.py line 233): plain string equality of the fetched highlight's
text with the CSV row's text. -/
def codeMatches (rowText candidateText : String) : Bool :=
  candidateText == rowText

/-- The inner loop over one book's highlights (src/readwise.py lines 232-235):
take the first highlight whose text equals the row text, then break. -/
def findInBook (rowText : String) (b : Book) : Option Highlight :=
  b.highlights.find? (fun h => codeMatches rowText h.text)

/-- The matching loop of update_tags_from_csv (src/readwise.py lines 229-235):
iterate over all fetched books; for each book whose title equals the row
title, overwrite the running result with that book's first matching
highlight when one exists (the break leaves only the inner loop, so the
outer loop keeps going). -/
def findMatchingHighlight (books : List Book) (title text : String) :
    Option Highlight :=
  books.foldl
    (fun acc b =>
      if b.title == title then
        match findInBook text b with
        | some h => some h
        | none => acc
      else acc)
    none

/-- The books whose title equals the row title and that contain a highlight
whose text equals the row text. -/
def booksWithMatch (books : List Book) (title text : String) : List Book :=
  books.filter
    (fun b => b.title == title && b.highlights.any (fun h => codeMatches text h.text))

/-- A row of the CSV work file: Book Title, Highlight, Tags columns. -/
structure CsvRow where
  bookTitle : String
  highlight : String
  tags : String
deriving DecidableEq

/-- The update requests that update_tags_from_csv issues for a fixed
already-updated id set: one per row whose matching highlight's stringified
id is not in that set, carrying the PATCH payload built from the row's
Tags column split on comma+space. -/
def pushInvocations (books : List Book) (logIds : List String)
    (rows : List CsvRow) : List (Nat × List Tag) :=
  rows.filterMap (fun row =>
    match findMatchingHighlight books row.bookTitle row.highlight with
    | none => none
    | some h =>
      if logIds.contains (toString h.id) then none
      else some (h.id, patchPayload (pySplit row.tags ", ")))

/-- The row loop of update_tags_from_csv (src/readwise.py lines 222-248),
threading the log file through the pushes. `initialIds` is the id set loaded
once before the loop; `respond k` gives the response sequence of the k-th
pusher invocation. Returns the final log file and the issued invocations
(id, PATCH payload). -/
def update_tags_from_csv_go (books : List Book) (initialIds : List String)
    (respond : Nat → Nat → PatchResult) :
    List CsvRow → Option String → Nat → Option String × List (Nat × List Tag)
  | [], file, _ => (file, [])
  | row :: rest, file, k =>
    match findMatchingHighlight books row.bookTitle row.highlight with
    | none => update_tags_from_csv_go books initialIds respond rest file k
    | some h =>
      if initialIds.contains (toString h.id) then
        update_tags_from_csv_go books initialIds respond rest file k
      else
        let pr := update_highlight_tags (pySplit row.tags ", ") (respond k)
        let file' := if pr.logged then log_successful_update file (toString h.id) else file
        let rec' := update_tags_from_csv_go books initialIds respond rest file' (k + 1)
        (rec'.1, (h.id, pr.payload) :: rec'.2)

/-- update_tags_from_csv (src/readwise.py lines 213-248): the already-updated
id set is loaded from the log file exactly once, before the row loop. -/
def update_tags_from_csv (books : List Book) (respond : Nat → Nat → PatchResult)
    (file : Option String) (rows : List CsvRow) :
    Option String × List (Nat × List Tag) :=
  update_tags_from_csv_go books (load_updated_highlight_ids file) respond rows file 0

/-- Modelled from the spec: the normalization of section 4.5 — trim
surrounding whitespace and lower-case (no other transformation). -/
def specNormalize (s : String) : List Char :=
  (stripChars s.data).map Char.toLower

/-- Modelled from the spec: the match key of section 4.5 — the first 100
characters of the normalized text (the whole text when shorter). -/
def specMatchKey (s : String) : List Char :=
  (specNormalize s).take 100

/-- Does the needle occur as a contiguous sublist of the haystack? -/
def containsSub (needle : List Char) : List Char → Bool
  | [] => startsWithSep needle []
  | c :: t => startsWithSep needle (c :: t) || containsSub needle t

/-- Modelled from the spec: the section 4.5 match rule — the candidate
matches when the match key of the row text occurs as a contiguous substring
of the candidate's normalized text. -/
def specMatches (rowText candidateText : String) : Bool :=
  containsSub (specMatchKey rowText) (specNormalize candidateText)

/-- Bool version of chained pagination: every response is a 200 page and
carries a truthy cursor exactly when further pages follow. -/
def chainedPages : List ExportResponse → Bool
  | [] => true
  | r :: rest =>
    r.statusCode == 200 && (cursorTruthy r.nextPageCursor == !rest.isEmpty)
      && chainedPages rest

/-- Two chained export pages used as concrete inputs in witnesses. -/
def pageA : ExportResponse :=
  ⟨200, [⟨"Book One", [⟨1, "first text", []⟩]⟩], some "cursor1"⟩

/-- Second page: no further cursor. -/
def pageB : ExportResponse :=
  ⟨200, [⟨"Book Two", [⟨2, "second text", []⟩]⟩], none⟩

/-- A response source whose every attempt yields HTTP 500. -/
def respHard : Nat → PatchResult := fun _ => PatchResult.status 500

/-- A response source yielding 429 on the first three attempts, then 200. -/
def respRateThenOk : Nat → PatchResult := fun i =>
  if i < 3 then PatchResult.status 429 else PatchResult.status 200

/-- A response source for the orchestrator: every invocation succeeds at once. -/
def respAllOk : Nat → Nat → PatchResult := fun _ _ => PatchResult.status 200

/-- A one-book fetched state used as concrete input in witnesses. -/
def demoBooks : List Book := [⟨"T", [⟨7, "x", []⟩]⟩]

/-- A CSV row matching demoBooks, with two tags. -/
def demoRow : CsvRow := ⟨"T", "x", "a, b"⟩

/-- A CSV row matching demoBooks whose Tags field is the empty string. -/
def demoRowNoTags : CsvRow := ⟨"T", "x", ""⟩

/-- A suggestion client returning three fixed tags. -/
def demoSuggest : String → List String := fun _ => ["Economics", "History", "Film"]

/-- The character data of a concatenation is the concatenation of the data. -/
theorem str_data_append (a b : String) : (a ++ b).data = a.data ++ b.data := by
  cases a; cases b; rfl

/-- dropWhile is idempotent. -/
theorem dropWhile_dropWhile {α : Type} (p : α → Bool) (l : List α) :
    (l.dropWhile p).dropWhile p = l.dropWhile p := by
  induction l with
  | nil => rfl
  | cons a t ih =>
    by_cases h : p a = true
    · simp [List.dropWhile_cons, h, ih]
    · simp [List.dropWhile_cons, h]

/-- The head of a non-empty dropWhile result falsifies the predicate. -/
theorem dropWhile_head_not {α : Type} (p : α → Bool) (l : List α) (c : α) (t : List α)
    (h : l.dropWhile p = c :: t) : p c = false := by
  induction l with
  | nil => simp at h
  | cons a l' ih =>
    by_cases ha : p a = true
    · rw [List.dropWhile_cons, if_pos ha] at h
      exact ih h
    · rw [List.dropWhile_cons, if_neg ha] at h
      injection h with h1 _
      subst h1
      simpa [Bool.not_eq_true] using ha

/-- A non-empty dropWhile result keeps the last element of the list. -/
theorem dropWhile_getLast? {α : Type} (p : α → Bool) (l : List α)
    (h : l.dropWhile p ≠ []) : (l.dropWhile p).getLast? = l.getLast? := by
  induction l with
  | nil => simp at h
  | cons a l' ih =>
    by_cases ha : p a = true
    · rw [List.dropWhile_cons, if_pos ha] at h ⊢
      cases l' with
      | nil => simp at h
      | cons b t => rw [ih h, List.getLast?_cons_cons]
    · rw [List.dropWhile_cons, if_neg ha]

/-- Python strip is idempotent. -/
theorem stripChars_idem (l : List Char) : stripChars (stripChars l) = stripChars l := by
  unfold stripChars
  cases hB : (l.dropWhile Char.isWhitespace).reverse.dropWhile Char.isWhitespace with
  | nil => simp
  | cons c t =>
    have hBne : (l.dropWhile Char.isWhitespace).reverse.dropWhile Char.isWhitespace
        ≠ [] := by rw [hB]; simp
    have hAne : l.dropWhile Char.isWhitespace ≠ [] := by
      intro he
      rw [he] at hB
      simp at hB
    obtain ⟨a, t', hA⟩ : ∃ a t', l.dropWhile Char.isWhitespace = a :: t' := by
      cases hA : l.dropWhile Char.isWhitespace with
      | nil => exact absurd hA hAne
      | cons x xs => exact ⟨x, xs, rfl⟩
    have hws : Char.isWhitespace a = false := dropWhile_head_not _ l a t' hA
    have hlast : (c :: t).getLast? = some a := by
      rw [← hB, dropWhile_getLast? _ _ hBne, List.getLast?_reverse, hA]
      rfl
    have hhead : (c :: t).reverse.head? = some a := by
      rw [List.head?_reverse, hlast]
    obtain ⟨r, hR⟩ : ∃ r, (c :: t).reverse = a :: r := by
      cases hRv : (c :: t).reverse with
      | nil => rw [hRv] at hhead; simp at hhead
      | cons x xs =>
        rw [hRv] at hhead
        simp only [List.head?_cons, Option.some_inj] at hhead
        exact ⟨xs, by rw [hhead]⟩
    rw [hR, List.dropWhile_cons, if_neg (by simp [hws]), ← hR,
      List.reverse_reverse, ← hB, dropWhile_dropWhile, hB]

/-- Python strip of a string is idempotent. -/
theorem pyStrip_idem (s : String) : pyStrip (pyStrip s) = pyStrip s := by
  unfold pyStrip
  rw [show (String.mk (stripChars s.data)).data = stripChars s.data from rfl,
    stripChars_idem]

/-- Unfolding lemma for splitLinesAux at a cons cell. -/
theorem splitLinesAux_cons (c : Char) (rest cur : List Char) :
    splitLinesAux (c :: rest) cur
      = if c == '\n' then cur.reverse :: splitLinesAux rest []
        else splitLinesAux rest (c :: cur) := rfl

/-- Cutting at the first newline of a newline-free chunk. -/
theorem splitLinesAux_newline (xs : List Char) (hxs : '\n' ∉ xs) :
    ∀ (rest cur : List Char),
      splitLinesAux (xs ++ '\n' :: rest) cur
        = (cur.reverse ++ xs) :: splitLinesAux rest [] := by
  induction xs with
  | nil =>
    intro rest cur
    rw [List.nil_append, splitLinesAux_cons, if_pos (by simp), List.append_nil]
  | cons c xs' ih =>
    intro rest cur
    have hc : ¬ (c == '\n') = true := by
      simp only [beq_iff_eq]
      intro he
      exact hxs (he ▸ List.mem_cons_self c xs')
    have hxs' : '\n' ∉ xs' := fun h => hxs (List.mem_cons_of_mem _ h)
    rw [List.cons_append, splitLinesAux_cons, if_neg hc, ih hxs' rest (c :: cur)]
    simp

/-- Line splitting distributes over a newline-terminated left part. -/
theorem splitLinesAux_append :
    ∀ (a : List Char), a.getLast? = some '\n' →
      ∀ (cur b : List Char),
        splitLinesAux (a ++ b) cur = splitLinesAux a cur ++ splitLinesAux b [] := by
  intro a
  induction a with
  | nil => intro ha; simp at ha
  | cons c a' ih =>
    intro ha cur b
    cases a' with
    | nil =>
      have hc : c = '\n' := by simpa using ha
      subst hc
      simp [splitLinesAux]
    | cons d a'' =>
      have ha' : (d :: a'').getLast? = some '\n' := by
        rw [← List.getLast?_cons_cons (a := c)]
        exact ha
      by_cases hc : (c == '\n') = true
      · rw [List.cons_append, splitLinesAux_cons c (d :: a'' ++ b) cur,
          splitLinesAux_cons c (d :: a'') cur, if_pos hc, if_pos hc,
          ih ha' [] b, List.cons_append]
      · rw [List.cons_append, splitLinesAux_cons c (d :: a'' ++ b) cur,
          splitLinesAux_cons c (d :: a'') cur, if_neg hc, if_neg hc]
        exact ih ha' (c :: cur) b

/-- A newline-free chunk followed by a newline is one whole line. -/
theorem splitLines_single (xs : List Char) (hxs : '\n' ∉ xs) :
    splitLines (xs ++ ['\n']) = [xs] := by
  unfold splitLines
  rw [show (['\n'] : List Char) = '\n' :: [] from rfl,
    splitLinesAux_newline xs hxs [] []]
  rfl

/-- The character data of the file written by log_successful_update. -/
theorem log_successful_update_data (file : Option String) (id : String) :
    ∀ c, log_successful_update file id = some c →
      c.data = (file.getD "").data ++ (id.data ++ ['\n']) := by
  intro c hc
  have : c = (file.getD "") ++ id ++ "\n" := by
    simpa [log_successful_update] using hc.symm
  subst this
  rw [str_data_append, str_data_append, List.append_assoc]

/-- Appending one id line to a well-formed log appends one loaded entry. -/
theorem load_record (file : Option String) (id : String)
    (hwf : wellFormedLog file) (hnl : '\n' ∉ id.data) :
    load_updated_highlight_ids (log_successful_update file id)
      = load_updated_highlight_ids file ++ [String.mk (stripChars id.data)] := by
  have hdata : ((file.getD "") ++ id ++ "\n").data
      = (file.getD "").data ++ (id.data ++ ['\n']) :=
    log_successful_update_data file id _ rfl
  cases file with
  | none =>
    simp only [load_updated_highlight_ids, log_successful_update]
    rw [hdata]
    simp only [Option.getD]
    rw [List.nil_append, splitLines_single id.data hnl]
    rfl
  | some c =>
    simp only [load_updated_highlight_ids, log_successful_update]
    rw [hdata]
    simp only [Option.getD]
    rcases hwf with hemp | hlastnl
    · rw [hemp, List.nil_append, splitLines_single id.data hnl]
      rfl
    · unfold splitLines
      rw [splitLinesAux_append c.data hlastnl [] (id.data ++ ['\n']),
        show splitLinesAux (id.data ++ ['\n']) [] = splitLines (id.data ++ ['\n']) from rfl,
        splitLines_single id.data hnl, List.map_append]
      rfl

/-- Loading after a further append keeps every previously loaded entry. -/
theorem load_record_mono (file : Option String)
    (hwf : wellFormedLog file) (x : String)
    (hx : x ∈ load_updated_highlight_ids file) :
    ∀ id', x ∈ load_updated_highlight_ids (log_successful_update file id') := by
  intro id'
  have hdata : ((file.getD "") ++ id' ++ "\n").data
      = (file.getD "").data ++ (id'.data ++ ['\n']) :=
    log_successful_update_data file id' _ rfl
  cases file with
  | none => simp [load_updated_highlight_ids] at hx
  | some c =>
    rcases hwf with hemp | hlastnl
    · simp only [load_updated_highlight_ids, splitLines, hemp] at hx
      simp [splitLinesAux] at hx
    · simp only [load_updated_highlight_ids, log_successful_update]
      rw [hdata]
      simp only [Option.getD]
      unfold splitLines
      rw [splitLinesAux_append c.data hlastnl [] (id'.data ++ ['\n']), List.map_append]
      exact List.mem_append_left _ hx

/-- The log written by log_successful_update is again well formed. -/
theorem log_record_wellFormed (file : Option String) (id : String) :
    wellFormedLog (log_successful_update file id) := by
  have hdata : ((file.getD "") ++ id ++ "\n").data
      = (file.getD "").data ++ (id.data ++ ['\n']) :=
    log_successful_update_data file id _ rfl
  simp only [log_successful_update, wellFormedLog]
  right
  rw [hdata, List.getLast?_append_of_ne_nil _ (by simp),
    List.getLast?_append_of_ne_nil _ (by simp)]
  rfl

/-- Unfolding lemma for pushLoop with positive fuel. -/
theorem pushLoop_succ (p : List Tag) (f : Nat → PatchResult) (fuel i b : Nat) :
    pushLoop p f (fuel + 1) i b =
      match f i with
      | PatchResult.transportError => ⟨false, [], 1, false, p⟩
      | PatchResult.status c =>
        if c = 200 then ⟨true, [], 1, true, p⟩
        else if c = 429 then
          let r := pushLoop p f fuel (i + 1) (b * 2)
          ⟨r.success, b :: r.sleeps, r.requests + 1, r.logged, p⟩
        else ⟨false, [], 1, false, p⟩ := rfl

/-- The payload field carries the PATCH body unchanged through the loop. -/
theorem pushLoop_payload (p : List Tag) (f : Nat → PatchResult) :
    ∀ fuel i b, (pushLoop p f fuel i b).payload = p := by
  intro fuel
  induction fuel with
  | zero => intro i b; rfl
  | succ n ih =>
    intro i b
    rw [pushLoop_succ]
    cases f i with
    | transportError => rfl
    | status c =>
      by_cases h200 : c = 200
      · simp [h200]
      · by_cases h429 : c = 429
        · simp [h200, h429]
        · simp [h200, h429]

/-- The id is logged exactly when the loop reports success. -/
theorem pushLoop_logged (p : List Tag) (f : Nat → PatchResult) :
    ∀ fuel i b, (pushLoop p f fuel i b).logged = (pushLoop p f fuel i b).success := by
  intro fuel
  induction fuel with
  | zero => intro i b; rfl
  | succ n ih =>
    intro i b
    rw [pushLoop_succ]
    cases f i with
    | transportError => rfl
    | status c =>
      by_cases h200 : c = 200
      · simp [h200]
      · by_cases h429 : c = 429
        · simp [h200, h429, ih]
        · simp [h200, h429]

/-- The loop issues at most as many requests as it has fuel. -/
theorem pushLoop_requests_le (p : List Tag) (f : Nat → PatchResult) :
    ∀ fuel i b, (pushLoop p f fuel i b).requests ≤ fuel := by
  intro fuel
  induction fuel with
  | zero => intro i b; exact Nat.le_refl 0
  | succ n ih =>
    intro i b
    rw [pushLoop_succ]
    cases f i with
    | transportError => simp
    | status c =>
      by_cases h200 : c = 200
      · simp [h200]
      · by_cases h429 : c = 429
        · subst h429
          simp only [if_neg (by omega : ¬ (429 : Nat) = 200), if_pos rfl]
          show (pushLoop p f n (i + 1) (b * 2)).requests + 1 ≤ n + 1
          have := ih (i + 1) (b * 2)
          omega
        · simp [h200, h429]

/-- Prepending the current backoff to a doubled geometric sleep list. -/
theorem cons_geometric (b m : Nat) :
    b :: (List.range m).map (fun j => b * 2 * 2 ^ j)
      = (List.range (m + 1)).map (fun j => b * 2 ^ j) := by
  rw [List.range_succ_eq_map, List.map_cons, List.map_map]
  have hfun : ((fun j => b * 2 ^ j) ∘ Nat.succ) = fun j => b * 2 * 2 ^ j := by
    funext j
    simp only [Function.comp_apply, pow_succ]
    ring
  rw [hfun]
  simp

/-- The sleeps performed are consecutive doublings of the starting backoff. -/
theorem pushLoop_sleeps_geometric (p : List Tag) (f : Nat → PatchResult) :
    ∀ fuel i b, (pushLoop p f fuel i b).sleeps
      = (List.range (pushLoop p f fuel i b).sleeps.length).map (fun j => b * 2 ^ j) := by
  intro fuel
  induction fuel with
  | zero => intro i b; rfl
  | succ n ih =>
    intro i b
    rw [pushLoop_succ]
    cases f i with
    | transportError => rfl
    | status c =>
      by_cases h200 : c = 200
      · simp [h200]
      · by_cases h429 : c = 429
        · subst h429
          simp only [if_neg (by omega : ¬ (429 : Nat) = 200), if_pos rfl]
          show b :: (pushLoop p f n (i + 1) (b * 2)).sleeps
            = (List.range (b :: (pushLoop p f n (i + 1) (b * 2)).sleeps).length).map
                (fun j => b * 2 ^ j)
          have hr := ih (i + 1) (b * 2)
          conv_lhs => rw [hr]
          rw [cons_geometric b (pushLoop p f n (i + 1) (b * 2)).sleeps.length]
          simp
        · simp [h200, h429]

/-- Exhausting the fuel on nothing but 429 responses fails after exactly
fuel requests without logging. -/
theorem pushLoop_exhaust (p : List Tag) (f : Nat → PatchResult) :
    ∀ fuel i b, (∀ j, j < fuel → f (i + j) = PatchResult.status 429) →
      (pushLoop p f fuel i b).success = false
        ∧ (pushLoop p f fuel i b).requests = fuel := by
  intro fuel
  induction fuel with
  | zero => intro i b _; exact ⟨rfl, rfl⟩
  | succ n ih =>
    intro i b h429
    have h0 : f i = PatchResult.status 429 := by
      have := h429 0 (Nat.succ_pos n)
      simpa using this
    rw [pushLoop_succ, h0]
    have hr := ih (i + 1) (b * 2) (fun j hj => by
      rw [show i + 1 + j = i + (j + 1) by omega]
      exact h429 (j + 1) (by omega))
    simp only [if_neg (by omega : (429 : Nat) ≠ 200), if_pos rfl]
    exact ⟨hr.1, by simp [hr.2]⟩

/-- A hard failure after m rate-limit responses: the loop stops right there
with m+1 requests, the m backoff sleeps already performed, and no logging. -/
theorem pushLoop_hard_fail (p : List Tag) (f : Nat → PatchResult) :
    ∀ (m : Nat), ∀ (fuel i b : Nat), m < fuel →
      (∀ j, j < m → f (i + j) = PatchResult.status 429) →
      isHardFailure (f (i + m)) = true →
      pushLoop p f fuel i b
        = ⟨false, (List.range m).map (fun j => b * 2 ^ j), m + 1, false, p⟩ := by
  intro m
  induction m with
  | zero =>
    intro fuel i b hlt _h429 hfail
    obtain ⟨fuel', rfl⟩ : ∃ fuel', fuel = fuel' + 1 := ⟨fuel - 1, by omega⟩
    rw [pushLoop_succ]
    rw [Nat.add_zero] at hfail
    cases hf : f i with
    | transportError => simp
    | status c =>
      rw [hf] at hfail
      simp only [isHardFailure, Bool.and_eq_true, Bool.not_eq_true',
        beq_eq_false_iff_ne, ne_eq] at hfail
      simp [hfail.1, hfail.2]
  | succ m ih =>
    intro fuel i b hlt h429 hfail
    obtain ⟨fuel', rfl⟩ : ∃ fuel', fuel = fuel' + 1 := ⟨fuel - 1, by omega⟩
    rw [pushLoop_succ]
    have h0 : f i = PatchResult.status 429 := by
      have := h429 0 (Nat.succ_pos m)
      simpa using this
    rw [h0]
    show (⟨(pushLoop p f fuel' (i + 1) (b * 2)).success,
        b :: (pushLoop p f fuel' (i + 1) (b * 2)).sleeps,
        (pushLoop p f fuel' (i + 1) (b * 2)).requests + 1,
        (pushLoop p f fuel' (i + 1) (b * 2)).logged, p⟩ : PushResult) = _
    have hr : pushLoop p f fuel' (i + 1) (b * 2)
        = ⟨false, (List.range m).map (fun j => b * 2 * 2 ^ j), m + 1, false, p⟩ := by
      apply ih fuel' (i + 1) (b * 2) (by omega)
      · intro j hj
        rw [show i + 1 + j = i + (j + 1) by omega]
        exact h429 (j + 1) (by omega)
      · rw [show i + 1 + m = i + (m + 1) by omega]
        exact hfail
    rw [hr, ← cons_geometric b m]

/-- A 200 after m rate-limit responses: the loop succeeds on attempt m+1,
having slept the m backoffs, and logs the id. -/
theorem pushLoop_ok_after (p : List Tag) (f : Nat → PatchResult) :
    ∀ (m : Nat), ∀ (fuel i b : Nat), m < fuel →
      (∀ j, j < m → f (i + j) = PatchResult.status 429) →
      f (i + m) = PatchResult.status 200 →
      pushLoop p f fuel i b
        = ⟨true, (List.range m).map (fun j => b * 2 ^ j), m + 1, true, p⟩ := by
  intro m
  induction m with
  | zero =>
    intro fuel i b hlt _h429 hok
    obtain ⟨fuel', rfl⟩ : ∃ fuel', fuel = fuel' + 1 := ⟨fuel - 1, by omega⟩
    rw [Nat.add_zero] at hok
    rw [pushLoop_succ, hok]
    simp
  | succ m ih =>
    intro fuel i b hlt h429 hok
    obtain ⟨fuel', rfl⟩ : ∃ fuel', fuel = fuel' + 1 := ⟨fuel - 1, by omega⟩
    rw [pushLoop_succ]
    have h0 : f i = PatchResult.status 429 := by
      have := h429 0 (Nat.succ_pos m)
      simpa using this
    rw [h0]
    show (⟨(pushLoop p f fuel' (i + 1) (b * 2)).success,
        b :: (pushLoop p f fuel' (i + 1) (b * 2)).sleeps,
        (pushLoop p f fuel' (i + 1) (b * 2)).requests + 1,
        (pushLoop p f fuel' (i + 1) (b * 2)).logged, p⟩ : PushResult) = _
    have hr : pushLoop p f fuel' (i + 1) (b * 2)
        = ⟨true, (List.range m).map (fun j => b * 2 * 2 ^ j), m + 1, true, p⟩ := by
      apply ih fuel' (i + 1) (b * 2) (by omega)
      · intro j hj
        rw [show i + 1 + j = i + (j + 1) by omega]
        exact h429 (j + 1) (by omega)
      · rw [show i + 1 + m = i + (m + 1) by omega]
        exact hok
    rw [hr, ← cons_geometric b m]

/-- The payload of a whole update_highlight_tags call is the PATCH body
built from its tag list. -/
theorem update_highlight_tags_payload (tags : List String)
    (respond : Nat → PatchResult) :
    (update_highlight_tags tags respond).payload = patchPayload tags :=
  pushLoop_payload _ respond MAX_RETRIES 0 2

/-- update_highlight_tags logs the id exactly when it returns true. -/
theorem update_highlight_tags_logged (tags : List String)
    (respond : Nat → PatchResult) :
    (update_highlight_tags tags respond).logged
      = (update_highlight_tags tags respond).success :=
  pushLoop_logged _ respond MAX_RETRIES 0 2

/-- The matching fold, for an arbitrary accumulator: the result is the first
matching highlight of the last title-and-text-matching book, or the
accumulator when no book matches. -/
theorem findMatching_foldl (title text : String) :
    ∀ (books : List Book) (acc : Option Highlight),
      books.foldl
        (fun acc b =>
          if b.title == title then
            match findInBook text b with
            | some h => some h
            | none => acc
          else acc) acc
      = match (booksWithMatch books title text).getLast? with
        | some b => findInBook text b
        | none => acc := by
  intro books
  induction books with
  | nil => intro acc; rfl
  | cons b bs ih =>
    intro acc
    rw [List.foldl_cons, ih]
    unfold booksWithMatch
    rw [List.filter_cons]
    by_cases hp : (b.title == title
        && b.highlights.any fun h => codeMatches text h.text) = true
    · rw [if_pos hp]
      rcases Bool.and_eq_true_iff.mp hp with ⟨hpt, hpa⟩
      cases hfl : List.filter
          (fun b => b.title == title
            && b.highlights.any fun h => codeMatches text h.text) bs with
      | nil =>
        simp only [List.getLast?_nil, List.getLast?_singleton]
        rw [if_pos hpt]
        obtain ⟨h0, hh0⟩ : ∃ h0, findInBook text b = some h0 := by
          have : (findInBook text b).isSome = true := by
            rw [findInBook, List.find?_isSome]
            exact List.any_eq_true.mp hpa
          exact Option.isSome_iff_exists.mp this
        rw [hh0]
      | cons c cs =>
        rw [List.getLast?_cons_cons]
        obtain ⟨x, hx⟩ : ∃ x, (c :: cs).getLast? = some x := by
          cases hgl : (c :: cs).getLast? with
          | none => exact absurd (List.getLast?_eq_none_iff.mp hgl) (by simp)
          | some x => exact ⟨x, rfl⟩
        rw [hx]
    · rw [if_neg hp]
      cases hfl : List.filter
          (fun b => b.title == title
            && b.highlights.any fun h => codeMatches text h.text) bs with
      | nil =>
        simp only [List.getLast?_nil]
        by_cases ht : (b.title == title) = true
        · rw [if_pos ht]
          have hpa : (b.highlights.any fun h => codeMatches text h.text) = false := by
            cases hany : b.highlights.any fun h => codeMatches text h.text
            · rfl
            · exact absurd (by rw [ht, hany]; rfl) hp
          have : findInBook text b = none := by
            rw [findInBook, List.find?_eq_none]
            intro x hx hcx
            have : (b.highlights.any fun h => codeMatches text h.text) = true :=
              List.any_eq_true.mpr ⟨x, hx, hcx⟩
            rw [this] at hpa
            exact Bool.true_eq_false.mp hpa
          rw [this]
        · rw [if_neg ht]
      | cons c cs =>
        obtain ⟨x, hx⟩ : ∃ x, (c :: cs).getLast? = some x := by
          cases hgl : (c :: cs).getLast? with
          | none => exact absurd (List.getLast?_eq_none_iff.mp hgl) (by simp)
          | some x => exact ⟨x, rfl⟩
        rw [hx]

/-- The per-row invocation list of the orchestrator loop equals the
filterMap over rows against the fixed initial id set, independently of the
threaded log file and invocation counter. -/
theorem go_invocations (books : List Book) (initIds : List String)
    (respond : Nat → Nat → PatchResult) :
    ∀ (rows : List CsvRow) (file : Option String) (k : Nat),
      (update_tags_from_csv_go books initIds respond rows file k).2
        = pushInvocations books initIds rows := by
  intro rows
  induction rows with
  | nil => intro file k; rfl
  | cons row rest ih =>
    intro file k
    cases hm : findMatchingHighlight books row.bookTitle row.highlight with
    | none =>
      simp only [update_tags_from_csv_go, pushInvocations, List.filterMap_cons, hm]
      exact ih file k
    | some h =>
      simp only [update_tags_from_csv_go, pushInvocations, List.filterMap_cons, hm]
      by_cases hc : initIds.contains (toString h.id) = true
      · rw [if_pos hc, if_pos hc]
        exact ih file k
      · rw [if_neg hc, if_neg hc]
        simp only [update_highlight_tags_payload]
        rw [ih _ (k + 1)]
        rfl

/-- Unfolding lemma for the export-phase fetch at a cons cell. -/
theorem fetch_export_cons (r : ExportResponse) (rest : List ExportResponse) :
    fetch_highlights_export (r :: rest)
      = if r.statusCode == 200 then
          if cursorTruthy r.nextPageCursor then
            r.results ++ fetch_highlights_export rest
          else r.results
        else [] := rfl

/-- On a chained response sequence the export-phase fetch returns the
concatenation of every page's results. -/
theorem fetch_export_chained :
    ∀ (rs : List ExportResponse), chainedPages rs = true →
      fetch_highlights_export rs = (rs.map ExportResponse.results).flatten := by
  intro rs
  induction rs with
  | nil => intro _; rfl
  | cons r rest ih =>
    intro hc
    simp only [chainedPages, Bool.and_eq_true] at hc
    obtain ⟨⟨h200, hcur⟩, hrest⟩ := hc
    have hcur' : cursorTruthy r.nextPageCursor = !rest.isEmpty := beq_iff_eq.mp hcur
    rw [fetch_export_cons, if_pos h200]
    cases rest with
    | nil =>
      rw [if_neg (by rw [hcur']; simp)]
      simp
    | cons r2 rest' =>
      rw [if_pos (by rw [hcur']; simp), ih hrest]
      simp

/-- C1, claim as stated, refuted: the update-phase candidate test is not the
normalized 100-character-prefix substring rule; at row text Hello and
candidate text HELLO the code's exact comparison fails while the spec rule
matches. -/
theorem c1_counterexample :
    ¬ (codeMatches "Hello" "HELLO" = specMatches "Hello" "HELLO") := by decide

/-- C1, amended: for every tabular row and candidate highlight, the
candidate matches if and only if its text is exactly equal (case-sensitive,
no trimming, no lower-casing, no truncation) to the row's text; the matcher
within a book selects precisely on that test. -/
theorem c1_amended_exact_equality (rowText : String) (b : Book) :
    ((findInBook rowText b).isSome = true ↔ ∃ h ∈ b.highlights, h.text = rowText) ∧
    (findInBook rowText b).all (fun h => h.text == rowText) = true := by
  constructor
  · rw [findInBook, List.find?_isSome]
    constructor
    · rintro ⟨h, hmem, hcm⟩
      exact ⟨h, hmem, by simpa [codeMatches] using hcm⟩
    · rintro ⟨h, hmem, heq⟩
      exact ⟨h, hmem, by simp [codeMatches, heq]⟩
  · cases hf : findInBook rowText b with
    | none => rfl
    | some h =>
      have hp := List.find?_some (show List.find?
        (fun h => codeMatches rowText h.text) b.highlights = some h from hf)
      simpa [Option.all, codeMatches] using hp

/-- C2, claim as stated, refuted: on a two-page chained response sequence the
export-phase fetch accumulates both pages but the update-phase fetch — the
redefined fetch_highlights that the update phase actually calls — returns
only the first page's records. -/
theorem c2_counterexample :
    fetch_highlights_export [pageA, pageB]
      = [⟨"Book One", [⟨1, "first text", []⟩]⟩,
         ⟨"Book Two", [⟨2, "second text", []⟩]⟩] ∧
    fetch_highlights_update [pageA, pageB]
      = [⟨"Book One", [⟨1, "first text", []⟩]⟩] := by decide

/-- C2, amended: the export-phase fetch issues repeated paginated requests
and returns the records of all pages, but the update-phase fetch issues a
single request and returns only the first page's results. -/
theorem c2_amended_pagination (rs : List ExportResponse)
    (hc : chainedPages rs = true) :
    fetch_highlights_export rs = (rs.map ExportResponse.results).flatten ∧
    (∀ r rest, rs = r :: rest → fetch_highlights_update rs = r.results) := by
  refine ⟨fetch_export_chained rs hc, ?_⟩
  rintro r rest rfl
  simp only [chainedPages, Bool.and_eq_true] at hc
  obtain ⟨⟨h200, _⟩, _⟩ := hc
  rw [show fetch_highlights_update (r :: rest)
      = if r.statusCode == 200 then r.results else [] from rfl, if_pos h200]

/-- Witness for C2 at the concrete two-page server. -/
theorem c2_witness :
    chainedPages [pageA, pageB] = true ∧
    fetch_highlights_export [pageA, pageB]
      = ([pageA, pageB].map ExportResponse.results).flatten ∧
    fetch_highlights_update [pageA, pageB] = pageA.results :=
  ⟨by decide, (c2_amended_pagination [pageA, pageB] (by decide)).1,
    (c2_amended_pagination [pageA, pageB] (by decide)).2 pageA [pageB] rfl⟩

/-- C3, claim as stated, refuted: with two books of the same title each
containing a matching highlight, the code selects the highlight of the
second (later) book, not the first: the break leaves only the inner loop,
so a later same-titled book overrides the earlier match. -/
theorem c3_counterexample :
    findMatchingHighlight [⟨"T", [⟨1, "x", []⟩]⟩, ⟨"T", [⟨2, "x", []⟩]⟩] "T" "x"
        = some ⟨2, "x", []⟩ ∧
    (⟨2, "x", []⟩ : Highlight) ≠ (⟨1, "x", []⟩ : Highlight) := by decide

/-- C3, amended: the highlight selected for a row is the first matching
highlight (in source order) of the LAST book in fetch order whose title
equals the row title and that contains a matching highlight; later
same-titled books with a match override earlier ones, and within a book the
first matching highlight wins. -/
theorem c3_amended_last_book_wins (books : List Book) (title text : String) :
    findMatchingHighlight books title text
      = match (booksWithMatch books title text).getLast? with
        | some b => findInBook text b
        | none => none :=
  findMatching_foldl title text books none

/-- C4: for every highlight with non-empty text, with at least 3 existing
tags the suggester is never invoked and the final tags equal the existing
tags; with fewer than 3 it is invoked exactly once, the first
3 - existing_count suggestions are appended in order, and the final count is
min 3 (existing_count + suggested_available). -/
theorem c4_final_tag_invariant (suggest : String → List String)
    (text : String) (existing : List String) :
    (3 ≤ existing.length →
      export_final_tags suggest text existing = (existing, 0)) ∧
    (existing.length < 3 →
      export_final_tags suggest text existing
          = (existing ++ (suggest text).take (3 - existing.length), 1) ∧
        (export_final_tags suggest text existing).1.length
          = min 3 (existing.length + (suggest text).length)) := by
  constructor
  · intro h3
    rw [export_final_tags, if_neg (by omega)]
  · intro hlt
    constructor
    · rw [export_final_tags, if_pos hlt]
    · rw [export_final_tags, if_pos hlt]
      simp only [List.length_append, List.length_take]
      omega

/-- Witness for C4: one existing tag gains the first two suggestions; four
existing tags suppress the suggester. -/
theorem c4_witness :
    export_final_tags demoSuggest "t" ["a"]
        = (["a", "Economics", "History"], 1) ∧
    export_final_tags demoSuggest "t" ["a", "b", "c", "d"]
        = (["a", "b", "c", "d"], 0) := by
  constructor
  · have h := (c4_final_tag_invariant demoSuggest "t" ["a"]).2 (by decide)
    rw [h.1]
    rfl
  · exact (c4_final_tag_invariant demoSuggest "t" ["a", "b", "c", "d"]).1 (by decide)

/-- C5: every 429 sleeps the current backoff, which starts at 2 and doubles
after every 429; at most 5 requests are ever issued; five straight 429s
return false after exactly 5 requests; three 429s then a 200 sleep 2, 4, 8
and succeed on the 4th attempt. -/
theorem c5_retry_policy (tags : List String) (respond : Nat → PatchResult) :
    (update_highlight_tags tags respond).requests ≤ MAX_RETRIES ∧
    (update_highlight_tags tags respond).sleeps
      = (List.range (update_highlight_tags tags respond).sleeps.length).map
          (fun j => 2 ^ (j + 1)) ∧
    ((∀ i, i < 5 → respond i = PatchResult.status 429) →
      (update_highlight_tags tags respond).success = false ∧
      (update_highlight_tags tags respond).requests = 5) ∧
    ((∀ i, i < 3 → respond i = PatchResult.status 429) →
      respond 3 = PatchResult.status 200 →
      (update_highlight_tags tags respond).sleeps = [2, 4, 8] ∧
      (update_highlight_tags tags respond).success = true ∧
      (update_highlight_tags tags respond).requests = 4) := by
  refine ⟨pushLoop_requests_le _ respond MAX_RETRIES 0 2, ?_, ?_, ?_⟩
  · have h := pushLoop_sleeps_geometric (patchPayload tags) respond MAX_RETRIES 0 2
    rw [update_highlight_tags]
    rw [h]
    have hfun : ∀ j : Nat, 2 * 2 ^ j = 2 ^ (j + 1) := by
      intro j
      rw [pow_succ]
      ring
    simp only [hfun]
    simp
  · intro h429
    have h := pushLoop_exhaust (patchPayload tags) respond MAX_RETRIES 0 2
      (fun j hj => by simpa using h429 j (by simpa [MAX_RETRIES] using hj))
    exact ⟨h.1, h.2⟩
  · intro h429 hok
    have h := pushLoop_ok_after (patchPayload tags) respond 3 MAX_RETRIES 0 2
      (by rw [MAX_RETRIES]; omega)
      (fun j hj => by simpa using h429 j hj)
      (by simpa using hok)
    rw [update_highlight_tags, h]
    refine ⟨?_, rfl, rfl⟩
    rfl

/-- Witness for C5 at the three-429s-then-200 response source. -/
theorem c5_witness :
    (update_highlight_tags ["a"] respRateThenOk).sleeps = [2, 4, 8] ∧
    (update_highlight_tags ["a"] respRateThenOk).success = true ∧
    (update_highlight_tags ["a"] respRateThenOk).requests = 4 :=
  (c5_retry_policy ["a"] respRateThenOk).2.2.2
    (by intro i hi; simp [respRateThenOk, hi])
    (by simp [respRateThenOk])

/-- C6: a response that is neither 200 nor 429 — any other status or a
transport error — arriving after k rate-limit responses ends the pusher at
once: it returns false, issues no further request, performs no sleep for
that attempt, and never appends to the update log. -/
theorem c6_hard_failure (tags : List String) (respond : Nat → PatchResult)
    (k : Nat) (hk : k < MAX_RETRIES)
    (h429 : ∀ i, i < k → respond i = PatchResult.status 429)
    (hfail : isHardFailure (respond k) = true) :
    (update_highlight_tags tags respond).success = false ∧
    (update_highlight_tags tags respond).requests = k + 1 ∧
    (update_highlight_tags tags respond).sleeps
      = (List.range k).map (fun j => 2 ^ (j + 1)) ∧
    (update_highlight_tags tags respond).logged = false ∧
    (∀ (file : Option String) (id : String),
      (if (update_highlight_tags tags respond).logged
        then log_successful_update file id else file) = file) := by
  have h := pushLoop_hard_fail (patchPayload tags) respond k MAX_RETRIES 0 2 hk
    (fun j hj => by simpa using h429 j hj)
    (by simpa using hfail)
  rw [update_highlight_tags, h]
  have hfun : ∀ j : Nat, 2 * 2 ^ j = 2 ^ (j + 1) := by
    intro j
    rw [pow_succ]
    ring
  refine ⟨rfl, rfl, by simp only [hfun], rfl, ?_⟩
  intro file id
  rfl

/-- Witness for C6 at a single immediate HTTP 500. -/
theorem c6_witness :
    (update_highlight_tags ["a"] respHard).success = false ∧
    (update_highlight_tags ["a"] respHard).requests = 1 ∧
    (update_highlight_tags ["a"] respHard).sleeps = [] ∧
    (update_highlight_tags ["a"] respHard).logged = false := by
  have h := c6_hard_failure ["a"] respHard 0 (by decide)
    (fun i hi => absurd hi (Nat.not_lt_zero i)) (by decide)
  exact ⟨h.1, h.2.1, by simpa using h.2.2.1, h.2.2.2.1⟩

/-- No invocation produced against a fixed id set carries an id of that set. -/
theorem pushInvocations_not_logged (books : List Book) (logIds : List String) :
    ∀ (rows : List CsvRow) (inv : Nat × List Tag),
      inv ∈ pushInvocations books logIds rows →
      logIds.contains (toString inv.1) = false := by
  intro rows
  induction rows with
  | nil => intro inv hinv; simp [pushInvocations] at hinv
  | cons row rest ih =>
    intro inv hinv
    simp only [pushInvocations, List.filterMap_cons] at hinv
    cases hm : findMatchingHighlight books row.bookTitle row.highlight with
    | none =>
      simp only [hm] at hinv
      exact ih inv hinv
    | some h =>
      simp only [hm] at hinv
      by_cases hc : logIds.contains (toString h.id) = true
      · simp only [hc, if_true] at hinv
        exact ih inv hinv
      · simp only [hc, if_false] at hinv
        rcases List.mem_cons.mp hinv with heq | hmem
        · subst heq
          simpa using hc
        · exact ih inv hmem

/-- C7: log_successful_update appends exactly when the pusher reports
success; recording an id adds it as one loaded entry of the well-formed log;
previously loaded ids survive any later append; and the orchestrator issues
zero pusher invocations for ids already in the loaded set. -/
theorem c7_log_round_trip (file : Option String) (id : String)
    (hwf : wellFormedLog file)
    (hid : stripChars id.data = id.data)
    (hnl : '\n' ∉ id.data) :
    (load_updated_highlight_ids (log_successful_update file id)
        = load_updated_highlight_ids file ++ [id]) ∧
    wellFormedLog (log_successful_update file id) ∧
    (∀ id', id ∈ load_updated_highlight_ids file →
      id ∈ load_updated_highlight_ids (log_successful_update file id')) ∧
    (∀ (tags : List String) (respond : Nat → PatchResult),
      (update_highlight_tags tags respond).logged
        = (update_highlight_tags tags respond).success) ∧
    (∀ (books : List Book) (logIds : List String) (rows : List CsvRow)
        (inv : Nat × List Tag), inv ∈ pushInvocations books logIds rows →
      logIds.contains (toString inv.1) = false) := by
  refine ⟨?_, log_record_wellFormed file id, ?_, ?_, ?_⟩
  · rw [load_record file id hwf hnl, hid]
  · intro id' hmem
    exact load_record_mono file hwf id hmem id'
  · intro tags respond
    exact update_highlight_tags_logged tags respond
  · intro books logIds rows inv hinv
    exact pushInvocations_not_logged books logIds rows inv hinv

/-- Witness for C7 at an absent log file and the id 42. -/
theorem c7_witness :
    load_updated_highlight_ids (log_successful_update none "42")
        = load_updated_highlight_ids none ++ ["42"] ∧
    wellFormedLog (log_successful_update none "42") :=
  ⟨(c7_log_round_trip none "42" True.intro (by decide) (by decide)).1,
   (c7_log_round_trip none "42" True.intro (by decide) (by decide)).2.1⟩

/-- C8, claim as stated, refuted: the parser caps nothing at 3; a reply with
four comma-separated fragments yields four tags. -/
theorem c8_counterexample :
    ¬ ((generate_tags_from_openai (some "a, b, c, d")).length ≤ 3) := by decide

/-- C8, amended: the suggestion client returns the reply split on commas
with every fragment trimmed and empty fragments discarded — with no cap at
three (the cap lives only in the prompt text and in the export loop's
slicing) — and on any failure returns the empty sequence. -/
theorem c8_amended_parsing (reply : Option String) :
    generate_tags_from_openai none = [] ∧
    (∀ t, t ∈ generate_tags_from_openai reply → t ≠ "" ∧ pyStrip t = t) := by
  refine ⟨rfl, ?_⟩
  intro t ht
  cases reply with
  | none => simp [generate_tags_from_openai] at ht
  | some s =>
    simp only [generate_tags_from_openai] at ht
    have hmem := List.mem_filter.mp ht
    constructor
    · simpa using hmem.2
    · obtain ⟨frag, _hfrag, hfe⟩ := List.mem_map.mp hmem.1
      rw [← hfe]
      exact pyStrip_idem frag

/-- Witness for C8 at a two-fragment reply with surrounding whitespace. -/
theorem c8_witness :
    "Economics" ∈ generate_tags_from_openai (some " Economics , Technology ") ∧
    "Economics" ≠ "" ∧ pyStrip "Economics" = "Economics" :=
  ⟨by decide,
    (c8_amended_parsing (some " Economics , Technology ")).2 "Economics" (by decide)⟩

/-- C9: the already-updated id set is loaded from the log file once, before
the row loop, and never refreshed in memory: the run's invocation list is
the filterMap of the rows against the load-time set, whatever the threaded
file becomes; hence two rows resolving to one id absent from that set both
invoke the pusher. -/
theorem c9_log_loaded_once (books : List Book)
    (respond : Nat → Nat → PatchResult) (file0 : Option String)
    (rows : List CsvRow) (r : CsvRow) (h : Highlight)
    (hm : findMatchingHighlight books r.bookTitle r.highlight = some h)
    (hskip : (load_updated_highlight_ids file0).contains (toString h.id) = false) :
    (update_tags_from_csv books respond file0 rows).2
        = pushInvocations books (load_updated_highlight_ids file0) rows ∧
    (update_tags_from_csv books respond file0 [r, r]).2
        = [(h.id, patchPayload (pySplit r.tags ", ")),
           (h.id, patchPayload (pySplit r.tags ", "))] := by
  refine ⟨go_invocations books _ respond rows file0 0, ?_⟩
  calc (update_tags_from_csv books respond file0 [r, r]).2
      = pushInvocations books (load_updated_highlight_ids file0) [r, r] :=
        go_invocations books _ respond [r, r] file0 0
    _ = [(h.id, patchPayload (pySplit r.tags ", ")),
         (h.id, patchPayload (pySplit r.tags ", "))] := by
        have hne : ¬ ((load_updated_highlight_ids file0).contains (toString h.id)
            = true) := by
          rw [hskip]
          exact Bool.false_ne_true
        simp only [pushInvocations, List.filterMap_cons, List.filterMap_nil, hm]
        rw [if_neg hne]

/-- Witness for C9: the same row twice against one fetched book and an
absent log file issues two pusher invocations for highlight 7. -/
theorem c9_witness :
    (update_tags_from_csv demoBooks respAllOk none [demoRow, demoRow]).2
      = [(7, patchPayload (pySplit demoRow.tags ", ")),
         (7, patchPayload (pySplit demoRow.tags ", "))] := by
  have h := c9_log_loaded_once demoBooks respAllOk none [demoRow, demoRow]
      demoRow ⟨7, "x", []⟩ (by decide) (by decide)
  exact h.2

/-- C10: a row whose Tags field is the empty string — exactly what the
export phase writes when a highlight ends with zero final tags — splits on
comma+space to the one-element list holding the empty string; a matched,
unlogged row is therefore not skipped, and the pusher is invoked with a
PATCH body holding a single empty-named tag object, destructively replacing
the remote tags. -/
theorem c10_empty_tags_destructive (books : List Book)
    (respond : Nat → Nat → PatchResult) (file0 : Option String)
    (row : CsvRow) (h : Highlight)
    (htags : row.tags = "")
    (hm : findMatchingHighlight books row.bookTitle row.highlight = some h)
    (hskip : (load_updated_highlight_ids file0).contains (toString h.id) = false) :
    csvTagsField [] = "" ∧
    pySplit "" ", " = [""] ∧
    patchPayload [""] = [(⟨""⟩ : Tag)] ∧
    (update_tags_from_csv books respond file0 [row]).2
      = [(h.id, [(⟨""⟩ : Tag)])] := by
  refine ⟨by decide, by decide, by decide, ?_⟩
  calc (update_tags_from_csv books respond file0 [row]).2
      = pushInvocations books (load_updated_highlight_ids file0) [row] :=
        go_invocations books _ respond [row] file0 0
    _ = [(h.id, [(⟨""⟩ : Tag)])] := by
        have hne : ¬ ((load_updated_highlight_ids file0).contains (toString h.id)
            = true) := by
          rw [hskip]
          exact Bool.false_ne_true
        simp only [pushInvocations, List.filterMap_cons, List.filterMap_nil, hm, htags]
        rw [if_neg hne]
        rfl

/-- Witness for C10: a matched row with an empty Tags field yields one
invocation whose PATCH body is a single empty-named tag object. -/
theorem c10_witness :
    (update_tags_from_csv demoBooks respAllOk none [demoRowNoTags]).2
      = [(7, [(⟨""⟩ : Tag)])] := by
  have h := c10_empty_tags_destructive demoBooks respAllOk none demoRowNoTags
      ⟨7, "x", []⟩ rfl (by decide) (by decide)
  exact h.2.2.2

end Readwise
